import Mathlib

/-
Shallow embedding of src/solar_array_calculator.py (function car_solar_flux
and the two record classes NodeVector / ElementVector).

Modelling conventions:
* Python float values are modelled exactly. A parsed decimal literal and the
  products and differences of such values are represented by the type Qv
  below, an integer numerator over a power-of-ten denominator (every float
  is such a number, since binary fractions are decimal fractions). Derived
  trigonometric and square-root quantities live in the real numbers.
* Python exceptions (ValueError from np.int / np.float, IndexError from list
  subscripts, AttributeError from accessing a field of the placeholder int 0)
  are modelled with an Except monad over the PyErr type below.
* The external collaborator sunmodel (sm.solar_angles, sm.irradiance) is out
  of scope per the specification; its outputs h_corr, azimuth, julian_day and
  irr are taken as parameters of the pipeline.
* The mesh file is modelled as the list of its lines (without newlines;
  Python str.split and str.find are insensitive to the trailing newline).
-/

/-- Kinds of runtime errors the Python code can raise in the modelled region. -/
inductive PyErr where
  | valueError
  | indexError
  | attributeError
deriving DecidableEq

deriving instance DecidableEq for Except

/-- Exact value of a Python float: the rational number n / 10 ^ e. The
denominator is always positive, so no well-formedness condition is needed. -/
structure Qv where
  n : Int
  e : Nat
deriving DecidableEq

/-- The rational number a Qv denotes. -/
def qval (a : Qv) : ℚ := (a.n : ℚ) / (10 : ℚ) ^ a.e

/-- The real number a Qv denotes. -/
noncomputable def rval (a : Qv) : ℝ := ((qval a : ℚ) : ℝ)

/-- Exact difference of two float values. -/
def qSub (a b : Qv) : Qv := ⟨a.n * 10 ^ b.e - b.n * 10 ^ a.e, a.e + b.e⟩

/-- Exact product of two float values. -/
def qMul (a b : Qv) : Qv := ⟨a.n * b.n, a.e + b.e⟩

/-- Exact negation of a float value, models np.multiply(v, -1) pointwise. -/
def qNeg (a : Qv) : Qv := ⟨-a.n, a.e⟩

/-- The comparison value < 0 on a float: the sign of the numerator, which
agrees with the sign of the denoted number because 10 ^ e > 0. -/
def qIsNeg (a : Qv) : Bool := a.n < 0

/-- A 3-vector of float values; the type of parsed node positions and of
cross-product normals in the embedded program. -/
structure Vec3 where
  x : Qv
  y : Qv
  z : Qv
deriving DecidableEq

/-- A 3-vector with rational components, the denotation of a Vec3; used to
state the geometric claims. -/
structure Vec3Q where
  x : ℚ
  y : ℚ
  z : ℚ
deriving DecidableEq

/-- A 3-vector with real components; used for the sun vector, whose
components are sines and cosines. -/
structure RVec3 where
  x : ℝ
  y : ℝ
  z : ℝ

/-- Denotation of a float 3-vector as a rational 3-vector. -/
def qvec (v : Vec3) : Vec3Q := ⟨qval v.x, qval v.y, qval v.z⟩

/-- Componentwise subtraction, models np.subtract on 3-vectors. -/
def vsub (a b : Vec3) : Vec3 := ⟨qSub a.x b.x, qSub a.y b.y, qSub a.z b.z⟩

/-- Cross product, models np.cross on 3-vectors. -/
def vcross (a b : Vec3) : Vec3 :=
  ⟨qSub (qMul a.y b.z) (qMul a.z b.y),
   qSub (qMul a.z b.x) (qMul a.x b.z),
   qSub (qMul a.x b.y) (qMul a.y b.x)⟩

/-- Componentwise negation, models np.multiply(v, -1). -/
def vneg (a : Vec3) : Vec3 := ⟨qNeg a.x, qNeg a.y, qNeg a.z⟩

/-- Componentwise subtraction on rational 3-vectors. -/
def vsubQ (a b : Vec3Q) : Vec3Q := ⟨a.x - b.x, a.y - b.y, a.z - b.z⟩

/-- Cross product on rational 3-vectors. -/
def vcrossQ (a b : Vec3Q) : Vec3Q :=
  ⟨a.y * b.z - a.z * b.y, a.z * b.x - a.x * b.z, a.x * b.y - a.y * b.x⟩

/-- Componentwise negation on rational 3-vectors. -/
def vnegQ (a : Vec3Q) : Vec3Q := ⟨-a.x, -a.y, -a.z⟩

/-- Scalar multiple of a rational 3-vector (used only to state linear
dependence of edge vectors in the degeneracy claim). -/
def smulQ (a : ℚ) (v : Vec3Q) : Vec3Q := ⟨a * v.x, a * v.y, a * v.z⟩

/-- Tests whether the second character list occurs at the head of the first. -/
def listHasPre : List Char → List Char → Bool
  | _, [] => true
  | [], _ :: _ => false
  | a :: as, b :: bs => a == b && listHasPre as bs

/-- Tests whether the second character list occurs anywhere inside the first. -/
def listContainsSub : List Char → List Char → Bool
  | [], pat => pat.isEmpty
  | s :: rest, pat => listHasPre (s :: rest) pat || listContainsSub rest pat

/-- Models the Python test line.find(pat) >= 0: substring occurrence. -/
def strContains (s pat : String) : Bool :=
  listContainsSub s.toList pat.toList

/-- True on the whitespace characters Python str.split() separates on. -/
def isWs (c : Char) : Bool :=
  c == ' ' || c == '\t' || c == '\r' || c == '\n'

/-- Tokenizer behind pySplit: walk the characters, cur holds the reversed
characters of the token being read. -/
def splitGo : List Char → List Char → List String
  | [], cur => if cur = [] then [] else [String.mk cur.reverse]
  | c :: rest, cur =>
      if isWs c then
        if cur = [] then splitGo rest []
        else String.mk cur.reverse :: splitGo rest []
      else splitGo rest (c :: cur)

/-- Models Python str.split() with no argument: split on whitespace runs,
dropping empty pieces. -/
def pySplit (s : String) : List String := splitGo s.toList []

/-- Value of a nonempty list of decimal digits, none on a non-digit. -/
def digitsVal (cs : List Char) : Option ℕ :=
  if cs = [] then none
  else
    cs.foldl
      (fun acc c =>
        match acc with
        | none => none
        | some n => if c.isDigit then some (n * 10 + (c.toNat - 48)) else none)
      (some 0)

/-- Models np.int(s) (Python int(s)) on a whitespace-free token: an optional
sign followed by digits, ValueError otherwise. -/
def npInt (s : String) : Except PyErr Int :=
  let cs := s.toList
  let sgn : Int := match cs with
    | '-' :: _ => -1
    | _ => 1
  let body : List Char := match cs with
    | '-' :: r => r
    | '+' :: r => r
    | _ => cs
  match digitsVal body with
  | some n => .ok (sgn * n)
  | none => .error .valueError

/-- Models np.float(s) (Python float(s)) on the plain decimal literals that
occur in mesh data: optional sign, integer part, optional fractional part.
Exponent notation is not modelled. The result is the exact value. -/
def npFloat (s : String) : Except PyErr Qv :=
  let cs := s.toList
  let sgn : Int := match cs with
    | '-' :: _ => -1
    | _ => 1
  let body : List Char := match cs with
    | '-' :: r => r
    | '+' :: r => r
    | _ => cs
  let ip := body.takeWhile (fun c => c ≠ '.')
  let rest := body.dropWhile (fun c => c ≠ '.')
  match rest with
  | [] =>
      match digitsVal ip with
      | some m => .ok ⟨sgn * m, 0⟩
      | none => .error .valueError
  | _ :: frac =>
      if frac.contains '.' then .error .valueError
      else
        match digitsVal ip, digitsVal frac with
        | some i, some f => .ok ⟨sgn * ((i : Int) * 10 ^ frac.length + f), frac.length⟩
        | some i, none => if frac = [] then .ok ⟨sgn * i, 0⟩ else .error .valueError
        | none, some f => if ip = [] then .ok ⟨sgn * f, frac.length⟩ else .error .valueError
        | none, none => .error .valueError

/-- Models sl[i] on the token list of a split line: IndexError when out of
range (split tokens are never indexed negatively by the code). -/
def getTok (sl : List String) (i : ℕ) : Except PyErr String :=
  match sl.get? i with
  | some t => .ok t
  | none => .error .indexError

/-- Models Python list subscription l[i] with an integer index: negative
indices wrap once from the end, anything still out of range is IndexError. -/
def pyGet {α : Type} (l : List α) (i : Int) : Except PyErr α :=
  let j : Int := if i < 0 then i + l.length else i
  if h : 0 ≤ j ∧ j.toNat < l.length then .ok (l.get ⟨j.toNat, h.2⟩)
  else .error .indexError

/-- Entries of the Python list node_vector: the int 0 placeholder appended on
the count line, or a NodeVector object carrying the parsed position
(node_num is parsed but never read afterwards, so it is not stored). -/
inductive NVEnt where
  | ph
  | nd (pos : Vec3)
deriving DecidableEq

/-- Entries of the Python list element_vector: the int 0 placeholder, or an
ElementVector object for a retained type-2 element carrying its three corner
node identifiers (ele_num and ele_type are parsed but never read afterwards). -/
inductive EVEnt where
  | ph
  | tri (n0 n1 n2 : Int)
deriving DecidableEq

/-- True on retained triangle entries, false on the placeholder. -/
def isTri : EVEnt → Bool
  | .ph => false
  | .tri _ _ _ => true

/-- Parser state of the line loop in car_solar_flux: the two section flags
node_read / element_read and the two accumulated tables. -/
structure PState where
  nodeRead : ℕ
  eleRead : ℕ
  nodes : List NVEnt
  eles : List EVEnt
deriving DecidableEq

/-- Models lines 101-106 of the source: parse a node data line and append a
NodeVector with its position to node_vector. -/
def nodeData (st : PState) (line : String) : Except PyErr PState := do
  let sl := pySplit line
  let t0 ← getTok sl 0
  let _ ← npInt t0
  let t1 ← getTok sl 1
  let a ← npFloat t1
  let t2 ← getTok sl 2
  let b ← npFloat t2
  let t3 ← getTok sl 3
  let c ← npFloat t3
  pure { st with nodes := st.nodes ++ [NVEnt.nd ⟨a, b, c⟩] }

/-- Models lines 114-121 of the source: parse an element data line; only when
the type field equals 2 are the node identifiers at offsets 5, 6, 7 read and
the element appended to element_vector. -/
def eleData (st : PState) (line : String) : Except PyErr PState := do
  let sl := pySplit line
  let t0 ← getTok sl 0
  let _ ← npInt t0
  let t1 ← getTok sl 1
  let ty ← npInt t1
  if ty = 2 then do
    let t5 ← getTok sl 5
    let a ← npInt t5
    let t6 ← getTok sl 6
    let b ← npInt t6
    let t7 ← getTok sl 7
    let c ← npInt t7
    pure { st with eles := st.eles ++ [EVEnt.tri a b c] }
  else
    pure st

/-- The element branches of the line loop (lines 108-121 of the source),
reached by fall-through after the node branches: the count line after
$Elements appends the int 0 placeholder and switches element_read to 2;
afterwards each line is element data. -/
def elePhase (st : PState) (line : String) : Except PyErr PState :=
  if st.eleRead = 1 then
    .ok { st with eleRead := 2, eles := st.eles ++ [EVEnt.ph] }
  else if st.eleRead = 2 then eleData st line
  else .ok st

/-- One iteration of the file-reading loop (lines 80-121 of the source).
The four marker tests use substring search and end the iteration; the count
line after $Nodes appends the int 0 placeholder; the node data branch has
no continue statement in the source and therefore falls through to the
element branches, modelled by elePhase. -/
def lineStep (st : PState) (line : String) : Except PyErr PState :=
  if strContains line "$Nodes" then .ok { st with nodeRead := 1 }
  else if strContains line "$EndNodes" then .ok { st with nodeRead := 0 }
  else if strContains line "$Elements" then .ok { st with eleRead := 1 }
  else if strContains line "$EndElements" then .ok { st with eleRead := 0 }
  else if st.nodeRead = 1 then
    .ok { st with nodeRead := 2, nodes := st.nodes ++ [NVEnt.ph] }
  else if st.nodeRead = 2 then
    nodeData st line >>= fun st1 => elePhase st1 line
  else elePhase st line

/-- The initial parser state before any line is read. -/
def initPState : PState := ⟨0, 0, [], []⟩

/-- The whole mesh-reading loop: fold lineStep over the file lines and
return the final node and element tables. -/
def parseMesh (lines : List String) : Except PyErr (List NVEnt × List EVEnt) :=
  (lines.foldlM lineStep initPState).map (fun st => (st.nodes, st.eles))

/-- Number of retained type-2 elements in the parsed element table (0 when
parsing fails); this is the quantity the specification calls the number of
retained triangles. -/
def retainedOf (lines : List String) : ℕ :=
  match parseMesh lines with
  | .ok (_, es) => (es.filter isTri).length
  | .error _ => 0

/-- Models lines 145-149 of the source: the raw cross product of the two
edge vectors, negated as a whole when its z component is negative. -/
def canonNormal (p0 p1 p2 : Vec3) : Vec3 :=
  let n := vcross (vsub p1 p0) (vsub p2 p0)
  if qIsNeg n.z then vneg n else n

/-- Look up node_vector[i].node_vec: subscription may raise IndexError and
reading node_vec of the int placeholder raises AttributeError. -/
def nodePos (nodes : List NVEnt) (i : Int) : Except PyErr Vec3 := do
  match ← pyGet nodes i with
  | .ph => .error .attributeError
  | .nd v => pure v

/-- One iteration of the normal-vector loop (lines 128-150): fetch the three
corner positions of the element by node identifier and build the
canonicalized normal. The placeholder has no ele_vec attribute. -/
def triNormal (nodes : List NVEnt) (e : EVEnt) : Except PyErr Vec3 :=
  match e with
  | .ph => .error .attributeError
  | .tri a b c => do
      let p0 ← nodePos nodes a
      let p1 ← nodePos nodes b
      let p2 ← nodePos nodes c
      pure (canonNormal p0 p1 p2)

/-- Tail of the normal-vector loop: process the remaining elements in order,
appending each normal to the accumulated normal_vec list. -/
def geomGo (nodes : List NVEnt) : List EVEnt → List Vec3 → Except PyErr (List Vec3)
  | [], acc => .ok acc
  | e :: rest, acc =>
      match triNormal nodes e with
      | .error er => .error er
      | .ok n => geomGo nodes rest (acc ++ [n])

/-- The loop for i in range(1, np.size(element_vector)) of lines 126-150:
the iteration starts at index 1, skipping the placeholder in slot 0. -/
def geomLoop (nodes : List NVEnt) (eles : List EVEnt) : Except PyErr (List Vec3) :=
  geomGo nodes (eles.drop 1) []

/-- Models np.linalg.norm on a float 3-vector: the real square root of the
sum of the squared component values. -/
noncomputable def normR (v : Vec3) : ℝ :=
  Real.sqrt (rval v.x * rval v.x + rval v.y * rval v.y + rval v.z * rval v.z)

/-- The area accumulation of lines 151-153, run over the computed normals:
area += np.linalg.norm(normal) / (2*1000000). -/
noncomputable def areaLoop (normals : List Vec3) : ℝ :=
  normals.foldl (fun a n => a + normR n / (2 * 1000000)) 0

/-- Mathematical area of the triangle p0 p1 p2 in the source units (mm^2):
half the magnitude of the raw, pre-canonicalization cross product. Stated
separately from canonNormal so that the invariant about the canonicalized
magnitude is a fact to prove, not a restatement. -/
noncomputable def triAreaMm2 (p0 p1 p2 : Vec3) : ℝ :=
  normR (vcross (vsub p1 p0) (vsub p2 p0)) / 2

/-- Degrees to radians, models np.deg2rad. -/
noncomputable def deg2rad (d : ℝ) : ℝ := d * Real.pi / 180

/-- The sun vector before the heading rotation (lines 163-166):
x = sin(elevation), y = cos(azimuth), z = sin(day angle), all in degrees. -/
noncomputable def rawSunVec (hCorr azimuth julianDay : ℝ) : RVec3 :=
  ⟨Real.sin (deg2rad hCorr), Real.cos (deg2rad azimuth), Real.sin (deg2rad julianDay)⟩

/-- The heading rotation as written on lines 170-171 of the source: the
first component is overwritten in place, and the second component is then
computed from the already-updated first component, not from the original. -/
noncomputable def sunVec (hCorr azimuth julianDay zRotate : ℝ) : RVec3 :=
  let v := rawSunVec hCorr azimuth julianDay
  let x1 := v.x * Real.cos (deg2rad zRotate) - v.y * Real.sin (deg2rad zRotate)
  let y1 := x1 * Real.sin (deg2rad zRotate) + v.y * Real.cos (deg2rad zRotate)
  ⟨x1, y1, v.z⟩

/-- Models np.dot of the real sun vector with a float normal vector. -/
noncomputable def dotRQ (s : RVec3) (v : Vec3) : ℝ :=
  s.x * rval v.x + s.y * rval v.y + s.z * rval v.z

/-- The per-element term of line 180 of the source:
eff * irr * 0.5 * np.dot(sun_vec, normal_vec[j]) / 1000000. -/
noncomputable def contribution (eff irr : ℝ) (sun : RVec3) (n : Vec3) : ℝ :=
  eff * irr * 0.5 * dotRQ sun n / 1000000

/-- Models normal_vec[j] for the loop index j coming from range, hence
non-negative: IndexError when j is past the end of the list. -/
def pyGetN {α : Type} (l : List α) (j : ℕ) : Except PyErr α :=
  match l.get? j with
  | some v => .ok v
  | none => .error .indexError

/-- Tail of the flux loop of lines 179-184, iterating over the remaining
index list: fetch normal_vec[j], clamp a negative term to 0 while counting
it, and accumulate the running flux total. -/
noncomputable def fluxGo (eff irr : ℝ) (sun : RVec3) (normals : List Vec3) :
    List ℕ → ℝ × ℕ → Except PyErr (ℝ × ℕ)
  | [], st => .ok st
  | j :: rest, st =>
      match pyGetN normals j with
      | .error er => .error er
      | .ok n =>
          let temp := contribution eff irr sun n
          if temp < 0 then fluxGo eff irr sun normals rest (st.1, st.2 + 1)
          else fluxGo eff irr sun normals rest (st.1 + temp, st.2)

/-- The flux loop for j in range(0, np.size(element_vector)-1) of lines
175-184, with eleLen the size of element_vector (Python size-1 on a
non-negative size agrees with truncated subtraction on ℕ). -/
noncomputable def fluxLoop (eff irr : ℝ) (sun : RVec3) (eleLen : ℕ)
    (normals : List Vec3) : Except PyErr (ℝ × ℕ) :=
  fluxGo eff irr sun normals (List.range (eleLen - 1)) (0, 0)

/-- The whole pipeline of car_solar_flux with the sunmodel outputs h_corr,
azimuth, julian_day, irr taken as parameters: parse the mesh file lines,
compute the normals and total area, build the sun vector, integrate the
flux, and return (flux, area, ele_count, neg_count) with
ele_count = np.size(element_vector). -/
noncomputable def carSolarFlux (lines : List String)
    (hCorr azimuth julianDay irr zRotate : ℝ) :
    Except PyErr (ℝ × ℝ × ℕ × ℕ) := do
  let (nodes, eles) ← parseMesh lines
  let normals ← geomLoop nodes eles
  let area := areaLoop normals
  let sun := sunVec hCorr azimuth julianDay zRotate
  let (flux, negCount) ← fluxLoop 0.239 irr sun eles.length normals
  pure (flux, area, eles.length, negCount)

/-- Value-level norm: the norm of a float 3-vector depends only on the
rational values of its components. -/
noncomputable def normQ (w : Vec3Q) : ℝ :=
  Real.sqrt (((w.x * w.x + w.y * w.y + w.z * w.z : ℚ) : ℝ))

/-- The clamped per-element term accumulated into flux on lines 180-184:
a negative contribution is replaced by 0. -/
noncomputable def clampTerm (eff irr : ℝ) (sun : RVec3) (n : Vec3) : ℝ :=
  if contribution eff irr sun n < 0 then 0 else contribution eff irr sun n

/-- Sum of the clamped contributions of a list of normals. -/
noncomputable def fluxSum (eff irr : ℝ) (sun : RVec3) (ms : List Vec3) : ℝ :=
  (ms.map (clampTerm eff irr sun)).sum

/-- Number of normals in a list whose contribution is negative. -/
noncomputable def negCnt (eff irr : ℝ) (sun : RVec3) (ms : List Vec3) : ℕ :=
  (ms.filter fun n => decide (contribution eff irr sun n < 0)).length

/-- A sample one-triangle mesh file: nodes (0,0,0), (1000,0,0), (0,1000,0)
in millimeters and one type-2 element over them. -/
def mesh1 : List String :=
  ["$Nodes", "3", "1 0 0 0", "2 1000 0 0", "3 0 1000 0", "$EndNodes",
   "$Elements", "1", "1 2 2 0 0 1 2 3", "$EndElements"]

/-- Shorthand for an integer-valued float. -/
def qI (i : Int) : Qv := ⟨i, 0⟩

/-- The node table parseMesh produces on mesh1. -/
def nodes1 : List NVEnt :=
  [NVEnt.ph, NVEnt.nd ⟨qI 0, qI 0, qI 0⟩, NVEnt.nd ⟨qI 1000, qI 0, qI 0⟩,
   NVEnt.nd ⟨qI 0, qI 1000, qI 0⟩]

/-- The element table parseMesh produces on mesh1. -/
def eles1 : List EVEnt := [EVEnt.ph, EVEnt.tri 1 2 3]

/-- The normal list geomLoop produces on mesh1. -/
def ns1 : List Vec3 := [⟨qI 0, qI 0, qI 1000000⟩]

/-- mesh1 with the final $EndElements marker line missing. -/
def meshNoEnd : List String :=
  ["$Nodes", "3", "1 0 0 0", "2 1000 0 0", "3 0 1000 0", "$EndNodes",
   "$Elements", "1", "1 2 2 0 0 1 2 3"]

/-- A well-formed mesh whose $Elements section holds no type-2 element. -/
def meshEmpty : List String :=
  ["$Nodes", "1", "1 0 0 0", "$EndNodes", "$Elements", "0", "$EndElements"]

/-- A mesh with a node data line whose coordinate field is not numeric. -/
def meshBadNum : List String :=
  ["$Nodes", "2", "1 0 0 0", "2 1000 abc 0", "$EndNodes"]

/-- A mesh whose single triangle references node identifier 9, absent from
the two-entry node table. -/
def meshDangling : List String :=
  ["$Nodes", "1", "1 0 0 0", "$EndNodes", "$Elements", "1", "1 2 2 0 0 1 1 9",
   "$EndElements"]

/-- The node table parseMesh produces on meshDangling. -/
def nodesD : List NVEnt := [NVEnt.ph, NVEnt.nd ⟨qI 0, qI 0, qI 0⟩]

/-- The element table parseMesh produces on meshDangling. -/
def elesD : List EVEnt := [EVEnt.ph, EVEnt.tri 1 1 9]

/-- Invariant of the parser state: once element_read is 2 the element table
is nonempty, and a nonempty element table starts with the placeholder. -/
def elesInv (st : PState) : Prop :=
  (st.eleRead = 2 → st.eles ≠ []) ∧ (st.eles = [] ∨ ∃ r, st.eles = EVEnt.ph :: r)

lemma ten_pow_ne (e : ℕ) : ((10 : ℚ)) ^ e ≠ 0 := pow_ne_zero _ (by norm_num)

lemma ten_pow_pos (e : ℕ) : (0 : ℚ) < (10 : ℚ) ^ e := by positivity

lemma qval_qSub (a b : Qv) : qval (qSub a b) = qval a - qval b := by
  unfold qval qSub
  rw [div_sub_div _ _ (ten_pow_ne a.e) (ten_pow_ne b.e), pow_add]
  push_cast
  ring

lemma qval_qMul (a b : Qv) : qval (qMul a b) = qval a * qval b := by
  unfold qval qMul
  rw [div_mul_div_comm, pow_add]
  push_cast
  ring

lemma qval_qNeg (a : Qv) : qval (qNeg a) = -qval a := by
  unfold qval qNeg
  push_cast
  rw [neg_div]

lemma qIsNeg_iff (a : Qv) : qIsNeg a = true ↔ qval a < 0 := by
  unfold qIsNeg qval
  rw [decide_eq_true_iff]
  constructor
  · intro h
    apply div_neg_of_neg_of_pos
    · exact_mod_cast h
    · exact ten_pow_pos a.e
  · intro h
    by_contra hn
    push_neg at hn
    have : (0 : ℚ) ≤ (a.n : ℚ) / (10 : ℚ) ^ a.e :=
      div_nonneg (by exact_mod_cast hn) (ten_pow_pos a.e).le
    linarith

lemma qvec_vsub (a b : Vec3) : qvec (vsub a b) = vsubQ (qvec a) (qvec b) := by
  unfold qvec vsub vsubQ
  simp [qval_qSub]

lemma qvec_vcross (a b : Vec3) : qvec (vcross a b) = vcrossQ (qvec a) (qvec b) := by
  unfold qvec vcross vcrossQ
  simp [qval_qSub, qval_qMul]

lemma qvec_vneg (a : Vec3) : qvec (vneg a) = vnegQ (qvec a) := by
  unfold qvec vneg vnegQ
  simp [qval_qNeg]

lemma normR_eq_normQ (v : Vec3) : normR v = normQ (qvec v) := by
  unfold normR normQ rval qvec
  push_cast
  ring_nf

lemma normQ_vnegQ (w : Vec3Q) : normQ (vnegQ w) = normQ w := by
  unfold normQ vnegQ
  congr 1
  push_cast
  ring

lemma vcrossQ_swap (a b : Vec3Q) : vcrossQ b a = vnegQ (vcrossQ a b) := by
  unfold vcrossQ vnegQ
  simp only [Vec3Q.mk.injEq]
  refine ⟨by ring, by ring, by ring⟩

lemma exceptBind_ok {ε α β : Type} {x : Except ε α} {f : α → Except ε β} {b : β}
    (h : x >>= f = .ok b) : ∃ a, x = .ok a ∧ f a = .ok b := by
  cases x with
  | error e =>
      simp only [bind, Except.bind] at h
      exact Except.noConfusion h
  | ok a => exact ⟨a, rfl, by simpa only [bind, Except.bind] using h⟩

lemma exceptMap_ok {ε α β : Type} {x : Except ε α} {f : α → β} {b : β}
    (h : x.map f = .ok b) : ∃ a, x = .ok a ∧ f a = b := by
  cases x with
  | error e => simp [Except.map] at h
  | ok a =>
      refine ⟨a, rfl, ?_⟩
      simpa [Except.map] using h

lemma nodeData_ok (st : PState) (line : String) (st1 : PState)
    (h : nodeData st line = .ok st1) :
    st1.eleRead = st.eleRead ∧ st1.eles = st.eles ∧ st1.nodeRead = st.nodeRead := by
  unfold nodeData at h
  obtain ⟨t0, h0, h⟩ := exceptBind_ok h
  obtain ⟨i0, hi0, h⟩ := exceptBind_ok h
  obtain ⟨t1, h1, h⟩ := exceptBind_ok h
  obtain ⟨a, ha, h⟩ := exceptBind_ok h
  obtain ⟨t2, h2, h⟩ := exceptBind_ok h
  obtain ⟨b, hb, h⟩ := exceptBind_ok h
  obtain ⟨t3, h3, h⟩ := exceptBind_ok h
  obtain ⟨c, hc, h⟩ := exceptBind_ok h
  cases h
  simp

lemma eleData_ok (st : PState) (line : String) (st1 : PState)
    (h : eleData st line = .ok st1) :
    st1.eleRead = st.eleRead ∧ st1.nodeRead = st.nodeRead ∧ st1.nodes = st.nodes ∧
      (st1.eles = st.eles ∨ ∃ x, st1.eles = st.eles ++ [x]) := by
  unfold eleData at h
  obtain ⟨t0, h0, h⟩ := exceptBind_ok h
  obtain ⟨i0, hi0, h⟩ := exceptBind_ok h
  obtain ⟨t1, h1, h⟩ := exceptBind_ok h
  obtain ⟨ty, hty, h⟩ := exceptBind_ok h
  by_cases h2 : ty = 2
  · rw [if_pos h2] at h
    obtain ⟨t5, h5, h⟩ := exceptBind_ok h
    obtain ⟨a, ha, h⟩ := exceptBind_ok h
    obtain ⟨t6, h6, h⟩ := exceptBind_ok h
    obtain ⟨b, hb, h⟩ := exceptBind_ok h
    obtain ⟨t7, h7, h⟩ := exceptBind_ok h
    obtain ⟨c, hc, h⟩ := exceptBind_ok h
    cases h
    simp
  · rw [if_neg h2] at h
    cases h
    simp

lemma elePhase_inv (st : PState) (line : String) (st1 : PState)
    (hI : elesInv st) (h : elePhase st line = .ok st1) : elesInv st1 := by
  unfold elePhase at h
  split_ifs at h with he1 he2
  · cases h
    constructor
    · intro _
      simp
    · rcases hI.2 with h0 | ⟨r, hr⟩
      · right
        exact ⟨[], by simp [h0]⟩
      · right
        exact ⟨r ++ [EVEnt.ph], by simp [hr]⟩
  · have hne : st.eles ≠ [] := hI.1 he2
    have hfacts := eleData_ok st line st1 h
    constructor
    · intro _
      rcases hfacts.2.2.2 with hsame | ⟨x, hx⟩
      · rw [hsame]; exact hne
      · rw [hx]; simp
    · rcases hI.2 with h0 | ⟨r, hr⟩
      · exact absurd h0 hne
      · rcases hfacts.2.2.2 with hsame | ⟨x, hx⟩
        · right; exact ⟨r, by rw [hsame, hr]⟩
        · right; exact ⟨r ++ [x], by rw [hx, hr]; simp⟩
  · cases h
    exact hI

lemma lineStep_inv (st : PState) (line : String) (st1 : PState)
    (hI : elesInv st) (h : lineStep st line = .ok st1) : elesInv st1 := by
  unfold lineStep at h
  split_ifs at h with hm1 hm2 hm3 hm4 hn1 hn2
  · cases h; exact ⟨hI.1, hI.2⟩
  · cases h; exact ⟨hI.1, hI.2⟩
  · cases h; exact ⟨fun hx => absurd hx (by norm_num), hI.2⟩
  · cases h; exact ⟨fun hx => absurd hx (by norm_num), hI.2⟩
  · cases h; exact ⟨hI.1, hI.2⟩
  · obtain ⟨stA, hA, h⟩ := exceptBind_ok h
    have hfacts := nodeData_ok st line stA hA
    have hIA : elesInv stA :=
      ⟨fun h2 => by rw [hfacts.2.1]; exact hI.1 (hfacts.1 ▸ h2),
       by rw [hfacts.2.1]; exact hI.2⟩
    exact elePhase_inv stA line st1 hIA h
  · exact elePhase_inv st line st1 hI h

lemma foldlM_inv (lines : List String) :
    ∀ st : PState, elesInv st → ∀ st1 : PState,
      lines.foldlM lineStep st = .ok st1 → elesInv st1 := by
  induction lines with
  | nil =>
      intro st hI st1 h
      cases h
      exact hI
  | cons l ls ih =>
      intro st hI st1 h
      rw [List.foldlM_cons] at h
      obtain ⟨stA, hA, h⟩ := exceptBind_ok h
      exact ih stA (lineStep_inv st l stA hI hA) st1 h

lemma parseMesh_eles_head (lines : List String) (nodes : List NVEnt) (eles : List EVEnt)
    (hp : parseMesh lines = .ok (nodes, eles)) :
    eles = [] ∨ ∃ r, eles = EVEnt.ph :: r := by
  unfold parseMesh at hp
  obtain ⟨st, hst, hfa⟩ := exceptMap_ok hp
  have hinv : elesInv st :=
    foldlM_inv lines initPState ⟨fun hx => by simp [initPState] at hx, Or.inl rfl⟩ st hst
  have heq : eles = st.eles := by
    have := congrArg Prod.snd hfa
    simpa using this.symm
  rw [heq]
  exact hinv.2

lemma geomGo_ok (nodes : List NVEnt) :
    ∀ (l : List EVEnt) (acc ns : List Vec3), geomGo nodes l acc = .ok ns →
      ns.length = acc.length + l.length ∧ ∀ e ∈ l, isTri e = true := by
  intro l
  induction l with
  | nil =>
      intro acc ns h
      cases h
      simp
  | cons e rest ih =>
      intro acc ns h
      unfold geomGo at h
      cases htn : triNormal nodes e with
      | error er =>
          rw [htn] at h
          exact Except.noConfusion h
      | ok n =>
          rw [htn] at h
          obtain ⟨hlen, hall⟩ := ih (acc ++ [n]) ns h
          constructor
          · simp at hlen
            simp [hlen]
            omega
          · intro x hx
            rcases List.mem_cons.mp hx with hx | hx
            · subst hx
              cases x with
              | ph => exact absurd htn (by simp [triNormal])
              | tri a b c => rfl
            · exact hall x hx

lemma fluxSum_nil (eff irr : ℝ) (sun : RVec3) : fluxSum eff irr sun [] = 0 := by
  simp [fluxSum]

lemma negCnt_nil (eff irr : ℝ) (sun : RVec3) : negCnt eff irr sun [] = 0 := by
  simp [negCnt]

lemma fluxGo_split (eff irr : ℝ) (sun : RVec3) :
    ∀ (ms pre : List Vec3) (st : ℝ × ℕ),
      fluxGo eff irr sun (pre ++ ms) (List.range' pre.length ms.length) st =
        .ok (st.1 + fluxSum eff irr sun ms, st.2 + negCnt eff irr sun ms) := by
  intro ms
  induction ms with
  | nil =>
      intro pre st
      simp [fluxGo, fluxSum, negCnt]
  | cons m rest ih =>
      intro pre st
      have hget : pyGetN (pre ++ m :: rest) pre.length = .ok m := by
        unfold pyGetN
        rw [List.get?_eq_getElem?, List.getElem?_append_right (le_refl _)]
        simp
      show fluxGo eff irr sun (pre ++ m :: rest)
          (pre.length :: List.range' (pre.length + 1) rest.length) st = _
      unfold fluxGo
      rw [hget]
      dsimp only
      have hsplit : pre ++ m :: rest = (pre ++ [m]) ++ rest := by simp
      have hlen : pre.length + 1 = (pre ++ [m]).length := by simp
      by_cases hc : contribution eff irr sun m < 0
      · rw [if_pos hc, hsplit, hlen, ih (pre ++ [m]) (st.1, st.2 + 1)]
        have h1 : fluxSum eff irr sun (m :: rest) = fluxSum eff irr sun rest := by
          simp [fluxSum, clampTerm, if_pos hc]
        have h2 : negCnt eff irr sun (m :: rest) = negCnt eff irr sun rest + 1 := by
          simp [negCnt, hc]
        rw [h1, h2]
        have harr : st.2 + 1 + negCnt eff irr sun rest = st.2 + (negCnt eff irr sun rest + 1) := by
          omega
        rw [harr]
      · rw [if_neg hc, hsplit, hlen, ih (pre ++ [m]) (st.1 + contribution eff irr sun m, st.2)]
        have h1 : fluxSum eff irr sun (m :: rest) =
            contribution eff irr sun m + fluxSum eff irr sun rest := by
          simp [fluxSum, clampTerm, if_neg hc]
        have h2 : negCnt eff irr sun (m :: rest) = negCnt eff irr sun rest := by
          simp [negCnt, hc]
        rw [h1, h2, add_assoc]

lemma fluxLoop_closed (eff irr : ℝ) (sun : RVec3) (ns : List Vec3) (eleLen : ℕ)
    (h : ns.length = eleLen - 1) :
    fluxLoop eff irr sun eleLen ns = .ok (fluxSum eff irr sun ns, negCnt eff irr sun ns) := by
  unfold fluxLoop
  rw [← h, List.range_eq_range']
  have := fluxGo_split eff irr sun ns [] (0, 0)
  simpa using this

lemma carSolarFlux_closed (lines : List String) (hC az jd irr θ : ℝ)
    (nodes : List NVEnt) (eles : List EVEnt) (ns : List Vec3)
    (hp : parseMesh lines = .ok (nodes, eles))
    (hg : geomLoop nodes eles = .ok ns) :
    carSolarFlux lines hC az jd irr θ =
      .ok (fluxSum 0.239 irr (sunVec hC az jd θ) ns, areaLoop ns, eles.length,
           negCnt 0.239 irr (sunVec hC az jd θ) ns) := by
  have hlen : ns.length = eles.length - 1 := by
    have hfacts := geomGo_ok nodes (eles.drop 1) [] ns hg
    have := hfacts.1
    simpa using this
  unfold carSolarFlux
  rw [hp]
  simp only [bind, Except.bind]
  rw [hg]
  dsimp only
  rw [fluxLoop_closed 0.239 irr (sunVec hC az jd θ) ns eles.length hlen]
  rfl

lemma qIsNeg_false_iff (a : Qv) : qIsNeg a = false ↔ 0 ≤ qval a := by
  rw [← Bool.not_eq_true, not_iff_comm, qIsNeg_iff, not_le]

lemma normR_vneg (v : Vec3) : normR (vneg v) = normR v := by
  rw [normR_eq_normQ, qvec_vneg, normQ_vnegQ, ← normR_eq_normQ]

lemma normR_canon (p0 p1 p2 : Vec3) :
    normR (canonNormal p0 p1 p2) = normR (vcross (vsub p1 p0) (vsub p2 p0)) := by
  unfold canonNormal
  dsimp only
  split_ifs with hz
  · exact normR_vneg _
  · rfl

/-- C5: for every triangle geometry, regardless of winding, the normal after
canonicalization has non-negative z value, and its magnitude equals twice
the triangle area in mm^2 for either winding order. -/
theorem C5_normal_canonicalization (p0 p1 p2 : Vec3) :
    0 ≤ qval (canonNormal p0 p1 p2).z ∧
    normR (canonNormal p0 p1 p2) = 2 * triAreaMm2 p0 p1 p2 ∧
    normR (canonNormal p0 p2 p1) = 2 * triAreaMm2 p0 p1 p2 := by
  refine ⟨?_, ?_, ?_⟩
  · unfold canonNormal
    dsimp only
    cases hz : qIsNeg (vcross (vsub p1 p0) (vsub p2 p0)).z with
    | true =>
        rw [if_pos rfl]
        have hlt := (qIsNeg_iff _).mp hz
        show 0 ≤ qval (qNeg _)
        rw [qval_qNeg]
        linarith
    | false =>
        rw [if_neg (by simp)]
        exact (qIsNeg_false_iff _).mp hz
  · rw [normR_canon]
    unfold triAreaMm2
    ring
  · rw [normR_canon]
    unfold triAreaMm2
    have hswap : normR (vcross (vsub p2 p0) (vsub p1 p0)) =
        normR (vcross (vsub p1 p0) (vsub p2 p0)) := by
      rw [normR_eq_normQ, normR_eq_normQ, qvec_vcross, qvec_vcross, vcrossQ_swap, normQ_vnegQ]
    rw [hswap]
    ring

lemma fluxSum_cons (eff irr : ℝ) (sun : RVec3) (m : Vec3) (rest : List Vec3) :
    fluxSum eff irr sun (m :: rest) =
      clampTerm eff irr sun m + fluxSum eff irr sun rest := by
  simp [fluxSum]

lemma fluxSum_filter (eff irr : ℝ) (sun : RVec3) (ns : List Vec3) :
    fluxSum eff irr sun ns =
      ((ns.filter fun n => !decide (contribution eff irr sun n < 0)).map
        (contribution eff irr sun)).sum := by
  induction ns with
  | nil => simp [fluxSum]
  | cons m rest ih =>
      rw [fluxSum_cons, ih]
      by_cases hc : contribution eff irr sun m < 0
      · rw [show clampTerm eff irr sun m = 0 from if_pos hc]
        simp [hc]
      · rw [show clampTerm eff irr sun m = contribution eff irr sun m from if_neg hc]
        simp [hc]

/-- C6: the flux loop adds exactly 0 for every normal whose contribution is
negative and counts it once in neg_count; the flux total is the sum of the
contributions of the non-negative normals only, and only negative ones are
counted. -/
theorem C6_self_shading_clamp (eff irr : ℝ) (sun : RVec3) (ns : List Vec3) :
    fluxLoop eff irr sun (ns.length + 1) ns =
      .ok (((ns.filter fun n => !decide (contribution eff irr sun n < 0)).map
              (contribution eff irr sun)).sum,
           (ns.filter fun n => decide (contribution eff irr sun n < 0)).length) := by
  rw [fluxLoop_closed eff irr sun ns (ns.length + 1) (by omega), fluxSum_filter]
  rfl

lemma vcrossQ_zero_of_dep (v w : Vec3Q) (a b : ℚ) (hab : ¬(a = 0 ∧ b = 0))
    (h : smulQ a v = smulQ b w) : vcrossQ v w = ⟨0, 0, 0⟩ := by
  have hx : a * v.x = b * w.x := congrArg Vec3Q.x h
  have hy : a * v.y = b * w.y := congrArg Vec3Q.y h
  have hz : a * v.z = b * w.z := congrArg Vec3Q.z h
  have key : ∀ p q r s : ℚ, a * p = b * q → a * r = b * s →
      p * s - r * q = 0 := by
    intro p q r s h1 h2
    have ha : a * (p * s - r * q) = 0 := by linear_combination s * h1 - q * h2
    have hb : b * (p * s - r * q) = 0 := by linear_combination r * h1 - p * h2
    rcases not_and_or.mp hab with ha0 | hb0
    · exact (mul_eq_zero.mp ha).resolve_left ha0
    · exact (mul_eq_zero.mp hb).resolve_left hb0
  unfold vcrossQ
  simp only [Vec3Q.mk.injEq]
  exact ⟨key v.y w.y v.z w.z hy hz, key v.z w.z v.x w.x hz hx, key v.x w.x v.y w.y hx hy⟩

lemma contribution_zero_of_qvec_zero (eff irr : ℝ) (sun : RVec3) (n : Vec3)
    (h : qvec n = ⟨0, 0, 0⟩) : contribution eff irr sun n = 0 := by
  have hx : qval n.x = 0 := congrArg Vec3Q.x h
  have hy : qval n.y = 0 := congrArg Vec3Q.y h
  have hz : qval n.z = 0 := congrArg Vec3Q.z h
  unfold contribution dotRQ rval
  rw [hx, hy, hz]
  norm_num

/-- C8: a retained triangle with collinear or coincident corners (linearly
dependent edge vectors) has the zero normal, area term exactly 0, and a flux
loop pass over it completes without error, adding 0 flux and counting no
negative contribution. -/
theorem C8_degenerate_triangle (p0 p1 p2 : Vec3) (a b : ℚ) (eff irr : ℝ) (sun : RVec3)
    (hab : ¬(a = 0 ∧ b = 0))
    (hdep : smulQ a (qvec (vsub p1 p0)) = smulQ b (qvec (vsub p2 p0))) :
    qvec (canonNormal p0 p1 p2) = ⟨0, 0, 0⟩ ∧
    normR (canonNormal p0 p1 p2) / (2 * 1000000) = 0 ∧
    fluxLoop eff irr sun 2 [canonNormal p0 p1 p2] = .ok (0, 0) := by
  have hcq : qvec (vcross (vsub p1 p0) (vsub p2 p0)) = ⟨0, 0, 0⟩ := by
    rw [qvec_vcross]
    exact vcrossQ_zero_of_dep _ _ a b hab hdep
  have hz0 : qval (vcross (vsub p1 p0) (vsub p2 p0)).z = 0 := congrArg Vec3Q.z hcq
  have hcanon : canonNormal p0 p1 p2 = vcross (vsub p1 p0) (vsub p2 p0) := by
    unfold canonNormal
    dsimp only
    rw [if_neg]
    rw [Bool.not_eq_true, qIsNeg_false_iff, hz0]
  have hq : qvec (canonNormal p0 p1 p2) = ⟨0, 0, 0⟩ := by rw [hcanon]; exact hcq
  refine ⟨hq, ?_, ?_⟩
  · rw [normR_eq_normQ, hq]
    unfold normQ
    norm_num
  · have hcon : contribution eff irr sun (canonNormal p0 p1 p2) = 0 :=
      contribution_zero_of_qvec_zero eff irr sun _ hq
    rw [fluxLoop_closed eff irr sun _ 2 (by simp)]
    have h1 : fluxSum eff irr sun [canonNormal p0 p1 p2] = 0 := by
      rw [fluxSum_cons]
      unfold clampTerm
      rw [hcon]
      simp [fluxSum]
    have h2 : negCnt eff irr sun [canonNormal p0 p1 p2] = 0 := by
      unfold negCnt
      rw [List.filter_cons_of_neg]
      · simp
      · simp [hcon]
    rw [h1, h2]

/-- C1: the heading rotation writes the first sun-vector component in place
and then computes the second component from the already-updated value; at
elevation 90, azimuth 90, day angle 0 and heading 90 the code yields second
component 0, while the correct rotation formula raw.x*sin + raw.y*cos from
the original raw.x yields 1. -/
theorem C1_rotation_second_component_bug :
    (sunVec 90 90 0 90).y = 0 ∧
    (rawSunVec 90 90 0).x * Real.sin (deg2rad 90) +
      (rawSunVec 90 90 0).y * Real.cos (deg2rad 90) = 1 := by
  have h90 : deg2rad 90 = Real.pi / 2 := by unfold deg2rad; ring
  have h0 : deg2rad 0 = 0 := by unfold deg2rad; ring
  constructor
  · unfold sunVec rawSunVec
    rw [h90, h0]
    simp [Real.sin_pi_div_two, Real.cos_pi_div_two, Real.sin_zero]
  · unfold rawSunVec
    rw [h90]
    simp [Real.sin_pi_div_two, Real.cos_pi_div_two]

lemma exceptOk_bind {ε α β : Type} (a : α) (f : α → Except ε β) :
    (Except.ok a : Except ε α) >>= f = f a := rfl

/-- C7: an element data line is appended to the retained table exactly when
its type field (token 1) parses to 2, and then with the three corner node
identifiers taken from tokens 5, 6, 7; a line with any other type value
leaves the table unchanged. -/
theorem C7_type2_retention (st : PState) (line : String) (i t : Int)
    (h0 : getTok (pySplit line) 0 >>= npInt = .ok i)
    (h1 : getTok (pySplit line) 1 >>= npInt = .ok t) :
    (t ≠ 2 → eleData st line = .ok st) ∧
    (∀ a b c : Int,
      getTok (pySplit line) 5 >>= npInt = .ok a →
      getTok (pySplit line) 6 >>= npInt = .ok b →
      getTok (pySplit line) 7 >>= npInt = .ok c →
      t = 2 → eleData st line = .ok { st with eles := st.eles ++ [EVEnt.tri a b c] }) := by
  obtain ⟨t0, ht0, hi0⟩ := exceptBind_ok h0
  obtain ⟨t1, ht1, hty⟩ := exceptBind_ok h1
  constructor
  · intro hne
    unfold eleData
    dsimp only
    rw [ht0]
    simp only [exceptOk_bind]
    rw [hi0]
    simp only [exceptOk_bind]
    rw [ht1]
    simp only [exceptOk_bind]
    rw [hty]
    simp only [exceptOk_bind]
    rw [if_neg hne]
    rfl
  · intro a b c h5 h6 h7 ht2
    subst ht2
    obtain ⟨t5, ht5, ha⟩ := exceptBind_ok h5
    obtain ⟨t6, ht6, hb⟩ := exceptBind_ok h6
    obtain ⟨t7, ht7, hc⟩ := exceptBind_ok h7
    unfold eleData
    dsimp only
    rw [ht0]
    simp only [exceptOk_bind]
    rw [hi0]
    simp only [exceptOk_bind]
    rw [ht1]
    simp only [exceptOk_bind]
    rw [hty]
    simp only [exceptOk_bind]
    simp only [if_true]
    rw [ht5]
    simp only [exceptOk_bind]
    rw [ha]
    simp only [exceptOk_bind]
    rw [ht6]
    simp only [exceptOk_bind]
    rw [hb]
    simp only [exceptOk_bind]
    rw [ht7]
    simp only [exceptOk_bind]
    rw [hc]
    simp only [exceptOk_bind]
    rfl

lemma clampTerm_eq_max (eff irr : ℝ) (sun : RVec3) (n : Vec3) :
    clampTerm eff irr sun n = max 0 (contribution eff irr sun n) := by
  unfold clampTerm
  rcases lt_or_le (contribution eff irr sun n) 0 with h | h
  · rw [if_pos h, max_eq_left h.le]
  · rw [if_neg (not_lt.mpr h), max_eq_right h]

lemma clampTerm_nonneg (eff irr : ℝ) (sun : RVec3) (n : Vec3) :
    0 ≤ clampTerm eff irr sun n := by
  unfold clampTerm
  split_ifs with h
  · exact le_refl 0
  · exact not_lt.mp h

lemma fluxSum_nonneg (eff irr : ℝ) (sun : RVec3) (ns : List Vec3) :
    0 ≤ fluxSum eff irr sun ns := by
  unfold fluxSum
  apply List.sum_nonneg
  intro x hx
  obtain ⟨n, _, rfl⟩ := List.mem_map.mp hx
  exact clampTerm_nonneg eff irr sun n

lemma filter_count_drop (eles : List EVEnt)
    (hall : ∀ e ∈ eles.drop 1, isTri e = true) :
    eles.length - 1 ≤ (eles.filter isTri).length := by
  cases eles with
  | nil => simp
  | cons e r =>
      have hallr : ∀ x ∈ r, isTri x = true := by simpa using hall
      have hr : r.filter isTri = r := List.filter_eq_self.mpr hallr
      cases he : isTri e with
      | true =>
          rw [List.filter_cons_of_pos (by simp [he]), hr]
          simp
      | false =>
          rw [List.filter_cons_of_neg (by simp [he]), hr]
          simp

/-- C2: for every mesh whose parse and geometry succeed, the returned flux
is the sum of the clamped contributions over the full normal list, the
negative count is the number of negative contributions over that same list,
and the normal list carries exactly one entry per retained triangle. -/
theorem C2_flux_covers_every_triangle (lines : List String) (hC az jd irr θ : ℝ)
    (nodes : List NVEnt) (eles : List EVEnt) (ns : List Vec3)
    (hp : parseMesh lines = .ok (nodes, eles))
    (hg : geomLoop nodes eles = .ok ns) :
    carSolarFlux lines hC az jd irr θ =
      .ok ((ns.map fun n => max 0 (contribution 0.239 irr (sunVec hC az jd θ) n)).sum,
           areaLoop ns, eles.length,
           (ns.filter fun n =>
             decide (contribution 0.239 irr (sunVec hC az jd θ) n < 0)).length) ∧
    ns.length = (eles.drop 1).length := by
  constructor
  · rw [carSolarFlux_closed lines hC az jd irr θ nodes eles ns hp hg]
    have hfun : clampTerm 0.239 irr (sunVec hC az jd θ) =
        fun n => max 0 (contribution 0.239 irr (sunVec hC az jd θ) n) :=
      funext fun n => clampTerm_eq_max _ _ _ n
    simp only [fluxSum, negCnt, hfun]
  · simpa using (geomGo_ok nodes (eles.drop 1) [] ns hg).1

/-- C9: with parse and geometry succeeding and non-negative irradiance, the
returned flux is non-negative and the negative count does not exceed the
number of retained triangles, because negative contributions are clamped. -/
theorem C9_nonnegative_flux (lines : List String) (hC az jd irr θ : ℝ)
    (nodes : List NVEnt) (eles : List EVEnt) (ns : List Vec3)
    (flux area : ℝ) (cnt negc : ℕ)
    (hp : parseMesh lines = .ok (nodes, eles))
    (hg : geomLoop nodes eles = .ok ns)
    (hirr : 0 ≤ irr)
    (hrun : carSolarFlux lines hC az jd irr θ = .ok (flux, area, cnt, negc)) :
    0 ≤ flux ∧ negc ≤ (eles.filter isTri).length := by
  have hclosed := carSolarFlux_closed lines hC az jd irr θ nodes eles ns hp hg
  rw [hrun] at hclosed
  have h4 := Except.ok.inj hclosed
  have hf : flux = fluxSum 0.239 irr (sunVec hC az jd θ) ns := congrArg Prod.fst h4
  have hn : negc = negCnt 0.239 irr (sunVec hC az jd θ) ns :=
    congrArg (fun r => r.2.2.2) h4
  constructor
  · rw [hf]
    exact fluxSum_nonneg _ _ _ _
  · rw [hn]
    have hfacts := geomGo_ok nodes (eles.drop 1) [] ns hg
    have hlen : ns.length = eles.length - 1 := by simpa using hfacts.1
    calc negCnt 0.239 irr (sunVec hC az jd θ) ns ≤ ns.length :=
          List.length_filter_le _ _
      _ = eles.length - 1 := hlen
      _ ≤ (eles.filter isTri).length := filter_count_drop eles hfacts.2

/-- C10: a well-formed mesh whose element section retains no triangle (the
element table is just the placeholder) yields flux 0, area 0 and negative
count 0, but element count 1: the placeholder is included in np.size. -/
theorem C10_placeholder_count (lines : List String) (nodes : List NVEnt)
    (hC az jd irr θ : ℝ)
    (hp : parseMesh lines = .ok (nodes, [EVEnt.ph])) :
    carSolarFlux lines hC az jd irr θ = .ok (0, 0, 1, 0) := by
  have hg : geomLoop nodes [EVEnt.ph] = .ok [] := rfl
  have h := carSolarFlux_closed lines hC az jd irr θ nodes [EVEnt.ph] [] hp hg
  simpa [fluxSum, negCnt, areaLoop] using h

/-- C3 amendment: whenever the mesh has an element section (nonempty element
table), the returned element count is the number of retained type-2
triangles plus one, the extra slot being the placeholder. -/
theorem C3_count_amended (lines : List String) (hC az jd irr θ : ℝ)
    (nodes : List NVEnt) (eles : List EVEnt) (ns : List Vec3)
    (hp : parseMesh lines = .ok (nodes, eles))
    (hg : geomLoop nodes eles = .ok ns)
    (hne : eles ≠ []) :
    carSolarFlux lines hC az jd irr θ =
      .ok (fluxSum 0.239 irr (sunVec hC az jd θ) ns, areaLoop ns,
           (eles.filter isTri).length + 1,
           negCnt 0.239 irr (sunVec hC az jd θ) ns) := by
  have hlen : eles.length = (eles.filter isTri).length + 1 := by
    rcases parseMesh_eles_head lines nodes eles hp with h0 | ⟨r, hr⟩
    · exact absurd h0 hne
    · subst hr
      have hall : ∀ e ∈ r, isTri e = true := by
        simpa using (geomGo_ok nodes ((EVEnt.ph :: r).drop 1) [] ns hg).2
      have hfil : (EVEnt.ph :: r).filter isTri = r := by
        rw [List.filter_cons_of_neg (by simp [isTri])]
        exact List.filter_eq_self.mpr hall
      rw [hfil]
      simp
  rw [carSolarFlux_closed lines hC az jd irr θ nodes eles ns hp hg, hlen]

/-- C4 amendment: the loader performs no marker validation at all: appending
the $EndElements marker to any input never changes the parse result (so its
absence cannot be detected); a non-numeric coordinate surfaces as a generic
ValueError; a triangle referencing a node identifier outside the node table
parses fine and only fails later, in the geometry pass, with a generic
IndexError. No MalformedMeshError exists. -/
theorem C4_no_marker_validation :
    (∀ lines : List String,
      parseMesh (lines ++ ["$EndElements"]) = parseMesh lines) ∧
    parseMesh meshBadNum = .error .valueError ∧
    parseMesh meshDangling = .ok (nodesD, elesD) ∧
    geomLoop nodesD elesD = .error .indexError := by
  refine ⟨?_, by decide, by decide, by decide⟩
  intro lines
  unfold parseMesh
  rw [List.foldlM_append]
  cases h : lines.foldlM lineStep initPState with
  | error e => rfl
  | ok st =>
      have hstep : lineStep st "$EndElements" = .ok { st with eleRead := 0 } := by
        unfold lineStep
        rw [if_neg (by decide), if_neg (by decide), if_neg (by decide), if_pos (by decide)]
      simp only [exceptOk_bind, List.foldlM_cons, List.foldlM_nil, hstep]
      rfl

/-- The concrete run of the pipeline on the one-triangle sample mesh with
all sunmodel outputs 0: flux 0, area one half, element count 2 (one
placeholder plus one triangle), negative count 0. -/
lemma mesh1_run : carSolarFlux mesh1 0 0 0 0 0 = .ok (0, 1/2, 2, 0) := by
  have hp : parseMesh mesh1 = .ok (nodes1, eles1) := by decide
  have hg : geomLoop nodes1 eles1 = .ok ns1 := by decide
  rw [carSolarFlux_closed mesh1 0 0 0 0 0 nodes1 eles1 ns1 hp hg]
  have hcon : ∀ n : Vec3, contribution 0.239 0 (sunVec 0 0 0 0) n = 0 := by
    intro n
    unfold contribution
    ring
  have h1 : fluxSum 0.239 0 (sunVec 0 0 0 0) ns1 = 0 := by
    unfold ns1
    rw [fluxSum_cons]
    unfold clampTerm
    rw [hcon]
    simp [fluxSum]
  have h2 : negCnt 0.239 0 (sunVec 0 0 0 0) ns1 = 0 := by
    simp [negCnt, ns1, hcon]
  have h3 : areaLoop ns1 = 1 / 2 := by
    unfold areaLoop ns1
    simp only [List.foldl]
    rw [normR_eq_normQ]
    have hq : qvec ⟨qI 0, qI 0, qI 1000000⟩ = ⟨0, 0, 1000000⟩ := by
      unfold qvec qI qval
      norm_num
    rw [hq]
    unfold normQ
    rw [show ((0 * 0 + 0 * 0 + 1000000 * 1000000 : ℚ) : ℝ) = (1000000 : ℝ) ^ 2 by norm_num]
    rw [Real.sqrt_sq (by norm_num)]
    norm_num
  rw [h1, h2, h3]
  rfl

/-- C3 counterexample: on the one-triangle sample mesh the returned element
count is 2 while exactly 1 type-2 element was retained, so the count does
not equal the number of retained triangles. -/
theorem C3_count_counterexample :
    carSolarFlux mesh1 0 0 0 0 0 = .ok (0, 1/2, 2, 0) ∧ retainedOf mesh1 = 1 :=
  ⟨mesh1_run, by decide⟩

/-- C4 counterexample: the mesh file missing its $EndElements marker parses
successfully into the same tables as the complete file; no error of any kind
is raised. -/
theorem C4_missing_marker_counterexample :
    parseMesh meshNoEnd = .ok (nodes1, eles1) := by decide

theorem C2_flux_covers_every_triangle_witness :
    carSolarFlux mesh1 0 0 0 0 0 =
      .ok ((ns1.map fun n => max 0 (contribution 0.239 0 (sunVec 0 0 0 0) n)).sum,
           areaLoop ns1, eles1.length,
           (ns1.filter fun n =>
             decide (contribution 0.239 0 (sunVec 0 0 0 0) n < 0)).length) ∧
    ns1.length = (eles1.drop 1).length :=
  C2_flux_covers_every_triangle mesh1 0 0 0 0 0 nodes1 eles1 ns1 (by decide) (by decide)

theorem C3_count_amended_witness :
    carSolarFlux mesh1 0 0 0 0 0 =
      .ok (fluxSum 0.239 0 (sunVec 0 0 0 0) ns1, areaLoop ns1,
           (eles1.filter isTri).length + 1,
           negCnt 0.239 0 (sunVec 0 0 0 0) ns1) :=
  C3_count_amended mesh1 0 0 0 0 0 nodes1 eles1 ns1 (by decide) (by decide) (by decide)

theorem C7_type2_retention_witness :
    eleData initPState "9 2 2 0 0 4 5 6" =
      .ok { initPState with eles := initPState.eles ++ [EVEnt.tri 4 5 6] } ∧
    eleData initPState "9 3 2 0 0 4 5 6" = .ok initPState :=
  ⟨(C7_type2_retention initPState "9 2 2 0 0 4 5 6" 9 2 (by decide) (by decide)).2
      4 5 6 (by decide) (by decide) (by decide) rfl,
   (C7_type2_retention initPState "9 3 2 0 0 4 5 6" 9 3 (by decide) (by decide)).1
      (by decide)⟩

theorem C8_degenerate_triangle_witness :
    qvec (canonNormal ⟨qI 0, qI 0, qI 0⟩ ⟨qI 1, qI 1, qI 0⟩ ⟨qI 2, qI 2, qI 0⟩) =
      ⟨0, 0, 0⟩ ∧
    normR (canonNormal ⟨qI 0, qI 0, qI 0⟩ ⟨qI 1, qI 1, qI 0⟩ ⟨qI 2, qI 2, qI 0⟩) /
        (2 * 1000000) = 0 ∧
    fluxLoop 0 0 ⟨0, 0, 0⟩ 2
        [canonNormal ⟨qI 0, qI 0, qI 0⟩ ⟨qI 1, qI 1, qI 0⟩ ⟨qI 2, qI 2, qI 0⟩] =
      .ok (0, 0) :=
  C8_degenerate_triangle ⟨qI 0, qI 0, qI 0⟩ ⟨qI 1, qI 1, qI 0⟩ ⟨qI 2, qI 2, qI 0⟩
    2 1 0 0 ⟨0, 0, 0⟩ (by norm_num)
    (by norm_num [smulQ, qvec, qval, vsub, qSub, qI])

theorem C9_nonnegative_flux_witness :
    (0 : ℝ) ≤ 0 ∧ (0 : ℕ) ≤ (eles1.filter isTri).length :=
  C9_nonnegative_flux mesh1 0 0 0 0 0 nodes1 eles1 ns1 0 (1/2) 2 0
    (by decide) (by decide) (le_refl 0) mesh1_run

theorem C10_placeholder_count_witness :
    carSolarFlux meshEmpty 0 0 0 0 0 = .ok (0, 0, 1, 0) :=
  C10_placeholder_count meshEmpty [NVEnt.ph, NVEnt.nd ⟨qI 0, qI 0, qI 0⟩]
    0 0 0 0 0 (by decide)
